import Mathlib

/-!
Verification development for the VB6 migration-analysis scripts
(`scripts/vb6_dead_code_detector.py`, `scripts/vb6_schema_extractor.py`,
`scripts/vb6_dependency_graph.py`, `scripts/vb6_comprehensive_scanner.py`,
`scripts/vb6_hardcoded_extractor.py`, `scripts/vb6_metrics_analyzer.py`,
`scripts/detect_stack.py`).

The Python sources are shallowly embedded:

* Python `dict` is modelled as an insertion-ordered association list
  (`List (key × value)`); assigning to an existing key replaces the value in
  place, assigning to a fresh key appends at the end — exactly the observable
  iteration behaviour of CPython dicts.
* Python `set` is modelled as an insertion-ordered duplicate-free list
  (`oadd` below).  CPython leaves set iteration order unspecified; wherever a
  result depends on that order (only the schema extractor's primary-key loop)
  the model fixes first-insertion order and the dependence is called out.
* Text is handled as Lean `String`/`List Char`; the scripts' regular
  expressions are embedded via a small backtracking matcher (`RE` below) whose
  alternation/greediness order follows Python's `re` engine, and
  `finditer` is the usual leftmost, non-overlapping scan.
* `open(...).read()` with the encoding-fallback loop is modelled by giving
  each input file a decode oracle `String → Option String` (encoding name to
  decode result).
-/

namespace VB6

/-- ASCII model of Python's `\w` (the source files are ASCII). -/
def isWordChar (c : Char) : Bool := c.isAlphanum || c = '_'

/-- Python's `\s` over ASCII: space, tab, newline, carriage return, vertical tab, form feed. -/
def isSpaceChar (c : Char) : Bool :=
  c = ' ' || c = '\t' || c = '\n' || c = '\r' || c = '\x0b' || c = '\x0c'

def lowerChar (c : Char) : Char :=
  if 'A' ≤ c && c ≤ 'Z' then Char.ofNat (c.toNat + 32) else c

def lowerStr (s : String) : String := String.mk (s.data.map lowerChar)

/-- Python `str.strip()` (whitespace from both ends). -/
def stripChars (cs : List Char) : List Char :=
  ((cs.dropWhile isSpaceChar).reverse.dropWhile isSpaceChar).reverse

def strip (s : String) : String := String.mk (stripChars s.data)

/-- Python `str.split(sep)` for a one-character separator: keeps empty parts,
never returns an empty list. -/
def splitOnChar (sep : Char) (cs : List Char) : List (List Char) :=
  match cs with
  | [] => [[]]
  | c :: rest =>
    let tail := splitOnChar sep rest
    if c = sep then [] :: tail
    else
      match tail with
      | [] => [[c]]
      | p :: ps => (c :: p) :: ps

def splitStr (sep : Char) (s : String) : List String :=
  (splitOnChar sep s.data).map String.mk

/-- Python `str.startswith`. -/
def startsWithStr (pre s : String) : Bool := s.data.take pre.length = pre.data

/-- Python `needle in haystack` (substring containment). -/
def containsStr (needle hay : String) : Bool :=
  (List.range (hay.length + 1)).any (fun i => (hay.data.drop i).take needle.length = needle.data)

/-- Python `str.endswith`. -/
def endsWithStr (suf s : String) : Bool := s.data.drop (s.length - suf.length) = suf.data

/-- Python `'\n'`-split used via `content.split('\n')`. -/
def linesOf (s : String) : List String := splitStr '\n' s

/-- `pathlib.Path(...).suffix.lower()`: the final `.ext` (lowercased), empty for
names with no dot or only a leading dot. -/
def suffixOf (name : String) : String :=
  let parts := splitOnChar '.' name.data
  match parts with
  | [] => ""
  | [_] => ""
  | p :: ps =>
    if p = [] && ps.length = 1 then ""
    else lowerStr (String.mk ('.' :: (ps.getLastD [])))

/-- `pathlib.Path(...).stem`: the name with the final suffix removed. -/
def stemOf (name : String) : String :=
  if suffixOf name = "" then name
  else String.mk (name.data.take (name.length - (suffixOf name).length))

/-- Ordered-set insertion (model of Python `set.add`): append if absent. -/
def oadd (l : List String) (x : String) : List String :=
  if x ∈ l then l else l ++ [x]

/-- Insertion-ordered dict write (model of Python `d[k] = v`): replace in
place if the key exists, append otherwise. -/
def dput {α : Type} [DecidableEq α] {β : Type} (l : List (α × β)) (k : α) (v : β) :
    List (α × β) :=
  match l with
  | [] => [(k, v)]
  | (k', v') :: rest => if k' = k then (k, v) :: rest else (k', v') :: dput rest k v

def dget {α : Type} [DecidableEq α] {β : Type} (l : List (α × β)) (k : α) : Option β :=
  match l with
  | [] => none
  | (k', v') :: rest => if k' = k then some v' else dget rest k

/-- Update the value at a key in place, inserting `d` (then updating) when absent:
model of `defaultdict` access-and-mutate. -/
def dupd {α : Type} [DecidableEq α] {β : Type} (l : List (α × β)) (k : α) (d : β) (f : β → β) :
    List (α × β) :=
  match l with
  | [] => [(k, f d)]
  | (k', v') :: rest => if k' = k then (k, f v') :: rest else (k', v') :: dupd rest k d f

/-! ### A small regular-expression engine

Each Python pattern used by the scripts is built from character-class
quantifiers, literals, alternation, an optional group, word boundaries and
anchors.  `reMatches` enumerates the candidate matches at a fixed position in
Python's backtracking preference order (alternatives left to right, greedy
quantifiers longest first, lazy quantifiers shortest first), so its head is
exactly the match Python's `re` engine produces there. -/

inductive RE where
  | eps : RE
  | lit (s : String) (ci : Bool) : RE
  | seq (a b : RE) : RE
  | alt (a b : RE) : RE
  | opt (a : RE) : RE
  | rep (p : Char → Bool) (atLeastOne : Bool) (lazy : Bool) : RE
  | grp (n : Nat) (a : RE) : RE
  | wordB : RE
  | eos : RE

def litAt (s : List Char) (i : Nat) (t : String) (ci : Bool) : Bool :=
  let seg := (s.drop i).take t.length
  if ci then seg.map lowerChar = t.data.map lowerChar else seg = t.data

/-- Length of the maximal run of `p`-characters starting at `i`. -/
def runLen (s : List Char) (i : Nat) (p : Char → Bool) : Nat :=
  ((s.drop i).takeWhile p).length

def isWordAt (s : List Char) (i : Nat) : Bool :=
  match s.get? i with
  | some c => isWordChar c
  | none => false

/-- Python `\b`: a word character on exactly one side of the position. -/
def isBoundary (s : List Char) (i : Nat) : Bool :=
  let pre := if i = 0 then false else isWordAt s (i - 1)
  pre != isWordAt s i

def strSlice (s : List Char) (i j : Nat) : String := String.mk ((s.drop i).take (j - i))

abbrev Groups := List (Nat × String)

/-- All candidate matches of `re` at position `i` of `s`, as
(end position, captured groups), in Python preference order. -/
def reMatches (s : List Char) : RE → Nat → List (Nat × Groups)
  | .eps, i => [(i, [])]
  | .lit t ci, i => if litAt s i t ci then [(i + t.length, [])] else []
  | .seq a b, i =>
    (reMatches s a i).flatMap fun x =>
      (reMatches s b x.1).map fun y => (y.1, x.2 ++ y.2)
  | .alt a b, i => reMatches s a i ++ reMatches s b i
  | .opt a, i => reMatches s a i ++ [(i, [])]
  | .rep p one lazy, i =>
    let r := runLen s i p
    let lo := if one then 1 else 0
    if r < lo then []
    else
      let lens := (List.range (r + 1 - lo)).map (· + lo)
      let lens := if lazy then lens else lens.reverse
      lens.map fun k => (i + k, [])
  | .grp n a, i => (reMatches s a i).map fun x => (x.1, x.2 ++ [(n, strSlice s i x.1)])
  | .wordB, i => if isBoundary s i then [(i, [])] else []
  | .eos, i =>
    if i = s.length || (i + 1 = s.length && s.get? i = some '\n') then [(i, [])] else []

/-- First (Python) match of `re` at position `i`, if any. -/
def matchAt (s : List Char) (re : RE) (i : Nat) : Option (Nat × Groups) :=
  (reMatches s re i).head?

/-- `re.finditer`: leftmost non-overlapping matches, as
(start, end, groups) triples. -/
def finditerAux (s : List Char) (re : RE) : Nat → Nat → List (Nat × Nat × Groups)
  | 0, _ => []
  | fuel + 1, i =>
    if i > s.length then []
    else
      match matchAt s re i with
      | some (j, g) => (i, j, g) :: finditerAux s re fuel (if i < j then j else i + 1)
      | none => finditerAux s re fuel (i + 1)

def finditer (re : RE) (content : String) : List (Nat × Nat × Groups) :=
  finditerAux content.data re (content.data.length + 1) 0

/-- `match.group(n)` (`none` for a group that did not participate). -/
def groupOf (g : Groups) (n : Nat) : Option String :=
  match g.find? (fun x => x.1 = n) with
  | some x => some x.2
  | none => none

/-- Convenience regex pieces shared by the embedded patterns. -/
def wplus : RE := .rep isWordChar true false
def splus : RE := .rep isSpaceChar true false
def sstar : RE := .rep isSpaceChar false false
def dotPlusLazyAll : RE := .rep (fun _ => true) true true

def altList (ci : Bool) : List String → RE
  | [] => .eps
  | [x] => .lit x ci
  | x :: xs => .alt (.lit x ci) (altList ci xs)

end VB6

/-! ## `scripts/vb6_dead_code_detector.py`

Embedding of the pipeline that produces the `dead_functions` part of the
detector's result: `PATTERNS` (declaration, event_handler, call_statement,
function_call), `_collect_declarations` (the declaration/event-handler part;
the same method also registers forms and globals, which feed only the
`orphan_forms` / `unused_globals` reports and are independent of
`dead_functions`, so they are not modelled here), `_find_references` (the
function-reference part, for the same reason), `_find_dead_functions`, and
`_read_file`.  An input file is a name plus its decode oracle. -/

namespace VB6

/-- `PATTERNS['declaration']`: `(Private|Public)?\s*(Sub|Function)\s+(\w+)\s*\(`, ignorecase. -/
def declarationRE : RE :=
  .seq (.opt (.grp 1 (.alt (.lit "Private" true) (.lit "Public" true))))
    (.seq sstar (.seq (.grp 2 (.alt (.lit "Sub" true) (.lit "Function" true)))
      (.seq splus (.seq (.grp 3 wplus) (.seq sstar (.lit "(" false))))))

/-- The fixed event-suffix list of `PATTERNS['event_handler']`, in source order. -/
def eventSuffixes : List String :=
  ["Click", "Load", "Change", "KeyPress", "MouseMove", "DblClick", "GotFocus",
   "LostFocus", "Activate", "Deactivate", "Resize", "Unload", "Initialize", "Terminate"]

/-- `PATTERNS['event_handler']`:
`(Private|Public)?\s*Sub\s+(\w+)_(Click|Load|...)`, ignorecase. -/
def eventHandlerRE : RE :=
  .seq (.opt (.grp 1 (.alt (.lit "Private" true) (.lit "Public" true))))
    (.seq sstar (.seq (.lit "Sub" true) (.seq splus (.seq (.grp 2 wplus)
      (.seq (.lit "_" false) (.grp 3 (altList true eventSuffixes)))))))

/-- `PATTERNS['call_statement']`: `Call\s+(\w+)`, ignorecase. -/
def callStatementRE : RE := .seq (.lit "Call" true) (.seq splus (.grp 1 wplus))

/-- `PATTERNS['function_call']`: `\b(\w+)\s*\(`, ignorecase. -/
def functionCallRE : RE := .seq .wordB (.seq (.grp 1 wplus) (.seq sstar (.lit "(" false)))

/-- An input source file: its (base) name together with the decode oracle
used by `_read_file` (encoding name ↦ decode result). -/
structure VFile where
  name : String
  decode : String → Option String

/-- `_read_file` (lines 312-320): try `utf-8`, `latin1`, `cp1252` in order,
return the first successful decode, `None` if all fail. -/
def readVFile (f : VFile) : Option String :=
  match f.decode "utf-8" with
  | some c => some c
  | none =>
    match f.decode "latin1" with
    | some c => some c
    | none => f.decode "cp1252"

/-- Extensions accepted by `_collect_declarations` / `_find_references`. -/
def vbExts : List String := [".frm", ".bas", ".cls", ".ctl"]

/-- Value stored in `self.declarations` (lines 148-153). -/
structure DeclInfo where
  file : String
  visibility : String
  type : String
  fullName : String
deriving DecidableEq, Repr

/-- One file's step of `_collect_declarations` (declaration and
event-handler collection, lines 137-157). -/
def collectStep (st : List (String × DeclInfo) × List String) (f : VFile) :
    List (String × DeclInfo) × List String :=
  if suffixOf f.name ∈ vbExts then
    match readVFile f with
    | none => st
    | some content =>
      let st₁ := (finditer declarationRE content).foldl (fun acc m =>
        let g := m.2.2
        let funcName := lowerStr ((groupOf g 3).getD "")
        let info : DeclInfo :=
          { file := f.name
            visibility := (groupOf g 1).getD "Private"
            type := (groupOf g 2).getD ""
            fullName := stemOf f.name ++ "." ++ (groupOf g 3).getD "" }
        (dput acc.1 funcName info, acc.2)) st
      (finditer eventHandlerRE content).foldl (fun acc m =>
        (acc.1, oadd acc.2 (lowerStr ((groupOf (m.2.2) 2).getD "")))) st₁
  else st

/-- `_collect_declarations` restricted to the state that feeds
`_find_dead_functions`: the `declarations` dict and `event_handlers` set. -/
def collectDeclarations (files : List VFile) : List (String × DeclInfo) × List String :=
  files.foldl collectStep ([], [])

/-- One file's step of `_find_references` (function-call part, lines
182-196; the form/global reference parts feed only the orphan-form and
unused-global reports). -/
def referencesStep (refs : List (String × List String)) (f : VFile) :
    List (String × List String) :=
  if suffixOf f.name ∈ vbExts then
    match readVFile f with
    | none => refs
    | some content =>
      let refs₁ := (finditer callStatementRE content).foldl (fun acc m =>
        dupd acc (lowerStr ((groupOf (m.2.2) 1).getD "")) [] (fun s => oadd s f.name)) refs
      (finditer functionCallRE content).foldl (fun acc m =>
        dupd acc (lowerStr ((groupOf (m.2.2) 1).getD "")) [] (fun s => oadd s f.name)) refs₁
  else refs

def findReferences (files : List VFile) : List (String × List String) :=
  files.foldl referencesStep []

/-- The built-in allow-list of `_find_dead_functions` (lines 217-224). -/
def vbBuiltins : List String :=
  ["left", "right", "mid", "len", "trim", "str", "val", "int",
   "cint", "clng", "cdbl", "csng", "cstr", "cbool", "cdate",
   "format", "msgbox", "inputbox", "isnull", "isnumeric", "isdate",
   "now", "date", "time", "year", "month", "day", "hour", "minute",
   "ucase", "lcase", "instr", "replace", "split", "join",
   "array", "ubound", "lbound", "redim", "shell", "doevents"]

/-- A `dead_functions` entry (lines 246-252). -/
structure DeadEntry where
  name : String
  file : String
  type : String
  visibility : String
  recommendation : String
deriving DecidableEq, Repr

def mkDeadEntry (info : DeclInfo) : DeadEntry :=
  { name := info.fullName
    file := info.file
    type := info.type
    visibility := info.visibility
    recommendation := "Review and remove if truly unused" }

/-- The reference test of `_find_dead_functions` (lines 232-236): a
declaration is skipped (kept alive) when its name is referenced and the
referencing file-set has more than one file or lacks the declaring file. -/
def refGuard (refs : List (String × List String)) (name file : String) : Bool :=
  match dget refs name with
  | some rs => decide (rs.length > 1 ∨ file ∉ rs)
  | none => false

/-- The loop body of `_find_dead_functions` (lines 226-252) for one
declaration. -/
def deadStep (handlers : List String) (refs : List (String × List String)) :
    String × DeclInfo → Option DeadEntry
  | (name, info) =>
    if name ∈ handlers then none
    else if refGuard refs name info.file then none
    else if name ∈ vbBuiltins then none
    else if name = "main" then none
    else some (mkDeadEntry info)

/-- `_find_dead_functions`: the declarations are scanned in insertion order
and each one contributes at most one entry. -/
def findDeadFunctions (decls : List (String × DeclInfo)) (handlers : List String)
    (refs : List (String × List String)) : List DeadEntry :=
  decls.filterMap (deadStep handlers refs)

/-- `analyze`, restricted to the `dead_functions` component of its result. -/
def deadCodeAnalyze (files : List VFile) : List DeadEntry :=
  let c := collectDeclarations files
  findDeadFunctions c.1 c.2 (findReferences files)

/-- A file whose bytes decode as UTF-8 to `content` (the common case). -/
def utf8File (name content : String) : VFile :=
  ⟨name, fun enc => if enc = "utf-8" then some content else none⟩

end VB6

/-! ### Dead-code detector: helper lemmas -/

namespace VB6

theorem mkDeadEntry_inj {i₁ i₂ : DeclInfo} (h : mkDeadEntry i₁ = mkDeadEntry i₂) :
    i₁ = i₂ := by
  cases i₁; cases i₂
  simp only [mkDeadEntry, DeadEntry.mk.injEq] at h
  simp [h.1, h.2.1, h.2.2.1, h.2.2.2]

theorem deadStep_some_eq {hs : List String} {refs : List (String × List String)}
    {p : String × DeclInfo} {e : DeadEntry} (h : deadStep hs refs p = some e) :
    e = mkDeadEntry p.2 := by
  obtain ⟨name, info⟩ := p
  unfold deadStep at h
  repeat split at h
  all_goals simp_all

theorem mem_findDeadFunctions_iff {decls : List (String × DeclInfo)} {hs : List String}
    {refs : List (String × List String)} {e : DeadEntry} :
    e ∈ findDeadFunctions decls hs refs ↔
      ∃ p, p ∈ decls ∧ deadStep hs refs p = some e := by
  simp [findDeadFunctions, List.mem_filterMap]

theorem refGuard_eq_false_iff {refs : List (String × List String)} {name file : String} :
    refGuard refs name file = false ↔
      (dget refs name = none ∨
        ∃ rs, dget refs name = some rs ∧ rs.length ≤ 1 ∧ file ∈ rs) := by
  unfold refGuard
  cases h : dget refs name with
  | none => simp
  | some rs =>
    simp only [decide_eq_false_iff_not, not_or, not_not, Option.some.injEq, reduceCtorEq,
      false_or]
    constructor
    · rintro ⟨h1, h2⟩
      exact ⟨rs, rfl, by omega, h2⟩
    · rintro ⟨rs2, rfl, hlen, hmem⟩
      exact ⟨by omega, hmem⟩

/-- The one step of `_find_dead_functions` produces an entry exactly when the
declaration is not an event handler, its reference file-set is empty or is
contained in the declaring file alone, it is not a built-in, and it is not
`main`. -/
theorem deadStep_eq_some_iff {hs : List String} {refs : List (String × List String)}
    {name : String} {info : DeclInfo} :
    deadStep hs refs (name, info) = some (mkDeadEntry info) ↔
      (name ∉ hs ∧
        (dget refs name = none ∨
          ∃ rs, dget refs name = some rs ∧ rs.length ≤ 1 ∧ info.file ∈ rs) ∧
        name ∉ vbBuiltins ∧ name ≠ "main") := by
  rw [← @refGuard_eq_false_iff refs name info.file]
  unfold deadStep
  constructor
  · intro h
    repeat split at h
    all_goals simp_all
  · rintro ⟨h1, h2, h3, h4⟩
    simp [h1, h2, h3, h4]

end VB6

/-! ### Dead-code detector: claim theorems -/

namespace VB6

theorem oadd_mem_self (l : List String) (x : String) : x ∈ oadd l x := by
  unfold oadd
  split
  · assumption
  · simp

theorem oadd_idem (l : List String) (x : String) : oadd (oadd l x) x = oadd l x := by
  have h := oadd_mem_self l x
  unfold oadd
  unfold oadd at h
  rw [if_pos h]

/-- Adding the same (name, file) reference twice is a no-op: `_find_references`
records referencing files as a set. -/
theorem addRef_idem (m : List (String × List String)) (k f : String) :
    dupd (dupd m k [] (fun s => oadd s f)) k [] (fun s => oadd s f)
      = dupd m k [] (fun s => oadd s f) := by
  induction m with
  | nil => simp [dupd, oadd_idem]
  | cons hd tl ih =>
    obtain ⟨k', v⟩ := hd
    by_cases h : k' = k <;> simp [dupd, h, ih, oadd_idem]

/-- If the entry built from a declaration occurs in the dead list and full
names are unambiguous, then that declaration's own step produced it. -/
theorem deadStep_of_mem_findDeadFunctions {decls : List (String × DeclInfo)}
    {hs : List String} {refs : List (String × List String)} {name : String}
    {info : DeclInfo} (hnodup : (decls.map (fun q => q.2.fullName)).Nodup)
    (hmem : (name, info) ∈ decls)
    (h : mkDeadEntry info ∈ findDeadFunctions decls hs refs) :
    deadStep hs refs (name, info) = some (mkDeadEntry info) := by
  obtain ⟨p, hp, hstep⟩ := mem_findDeadFunctions_iff.mp h
  have he := deadStep_some_eq hstep
  have hinfo : p.2 = info := mkDeadEntry_inj he.symm
  have hfn : p.2.fullName = info.fullName := by rw [hinfo]
  have hpe : p = (name, info) := List.inj_on_of_nodup_map hnodup hp hmem hfn
  rw [hpe] at hstep
  rw [hstep, he, hinfo]

/-- C1: the claim says a declared routine matching `<control>_<EventSuffix>`
is never reported dead.  On the code this fails: `_collect_declarations`
stores only the control prefix `match.group(2)` (here `cmdok`) in
`event_handlers`, while `_find_dead_functions` compares full declaration
names (here `cmdok_click`), so the skip never applies and the uncalled
handler `Form1.cmdOK_Click` is reported in `dead_functions`. -/
theorem c1_uncalled_event_handler_is_reported_dead :
    ((finditer eventHandlerRE "Private Sub cmdOK_Click()\nEnd Sub\n").map
        (fun m => ((groupOf m.2.2 2).getD "", (groupOf m.2.2 3).getD ""))
      = [("cmdOK", "Click")])
    ∧ (collectDeclarations
        [utf8File "Form1.frm" "Private Sub cmdOK_Click()\nEnd Sub\n"]).2 = ["cmdok"]
    ∧ (deadCodeAnalyze
        [utf8File "Form1.frm" "Private Sub cmdOK_Click()\nEnd Sub\n"]).map
          (fun e => e.name) = ["Form1.cmdOK_Click"] := by
  decide

/-- C3 counterexample: `Helper` is declared in `a.bas` and referenced more
than once within `a.bas` (two `Call Helper` statements), yet the detector
still reports `a.Helper` dead — references are tracked as a set of files, so
within-file multiplicity cannot make a routine live. -/
theorem c3_counterexample_two_selffile_calls_still_dead :
    ((finditer callStatementRE
        "Private Sub Helper()\nEnd Sub\nPrivate Sub Runner()\nCall Helper\nCall Helper\nEnd Sub\n").map
        (fun m => lowerStr ((groupOf m.2.2 1).getD "")) = ["helper", "helper"])
    ∧ "a.Helper" ∈ (deadCodeAnalyze
        [utf8File "a.bas"
          "Private Sub Helper()\nEnd Sub\nPrivate Sub Runner()\nCall Helper\nCall Helper\nEnd Sub\n"]).map
        (fun e => e.name) := by
  decide

/-- C3 (amended): for a declared routine that is not an event handler, not a
built-in and not `main`, the detector's verdict depends only on the set of
distinct files referencing it: it is dead iff that set is empty or contains
the declaring file alone, no matter how many references occur inside the
declaring file (recording a referencing file twice is a no-op). -/
theorem c3_liveness_depends_only_on_referencing_file_set
    (decls : List (String × DeclInfo)) (hs : List String)
    (refs : List (String × List String)) (name : String) (info : DeclInfo)
    (hmem : (name, info) ∈ decls)
    (hnodup : (decls.map (fun q => q.2.fullName)).Nodup)
    (hh : name ∉ hs) (hb : name ∉ vbBuiltins) (hm : name ≠ "main") :
    (mkDeadEntry info ∈ findDeadFunctions decls hs refs ↔
      (dget refs name = none ∨
        ∃ rs, dget refs name = some rs ∧ rs.length ≤ 1 ∧ info.file ∈ rs))
    ∧ (∀ (m : List (String × List String)) (k f : String),
        dupd (dupd m k [] (fun s => oadd s f)) k [] (fun s => oadd s f)
          = dupd m k [] (fun s => oadd s f)) := by
  refine ⟨⟨fun h => ?_, fun h => ?_⟩, addRef_idem⟩
  · have hstep := deadStep_of_mem_findDeadFunctions hnodup hmem h
    exact (deadStep_eq_some_iff.mp hstep).2.1
  · exact mem_findDeadFunctions_iff.mpr
      ⟨(name, info), hmem, deadStep_eq_some_iff.mpr ⟨hh, h, hb, hm⟩⟩

theorem c3_liveness_depends_only_on_referencing_file_set_witness :
    mkDeadEntry ⟨"a.bas", "Private", "Sub", "a.Helper"⟩ ∈
      findDeadFunctions [("helper", ⟨"a.bas", "Private", "Sub", "a.Helper"⟩)] []
        [("helper", ["a.bas"])] :=
  ((c3_liveness_depends_only_on_referencing_file_set
      [("helper", ⟨"a.bas", "Private", "Sub", "a.Helper"⟩)] []
      [("helper", ["a.bas"])] "helper" ⟨"a.bas", "Private", "Sub", "a.Helper"⟩
      (by decide) (by decide) (by decide) (by decide) (by decide)).1).mpr
    (Or.inr ⟨["a.bas"], rfl, by decide, by decide⟩)

/-- C4: a declared routine that is not an event handler, built-in or `main`,
whose reference set is exactly its own declaring file, is reported dead; if a
second, different file also references it, it is not reported. -/
theorem c4_selffile_only_dead_second_file_live
    (decls : List (String × DeclInfo)) (hs : List String)
    (refs : List (String × List String)) (name : String) (info : DeclInfo)
    (hmem : (name, info) ∈ decls)
    (hnodup : (decls.map (fun q => q.2.fullName)).Nodup)
    (hh : name ∉ hs) (hb : name ∉ vbBuiltins) (hm : name ≠ "main") :
    (dget refs name = some [info.file] →
      mkDeadEntry info ∈ findDeadFunctions decls hs refs)
    ∧ (∀ f₂, f₂ ≠ info.file → dget refs name = some [info.file, f₂] →
      mkDeadEntry info ∉ findDeadFunctions decls hs refs) := by
  constructor
  · intro hr
    exact mem_findDeadFunctions_iff.mpr ⟨(name, info), hmem,
      deadStep_eq_some_iff.mpr ⟨hh, Or.inr ⟨[info.file], hr, by simp, by simp⟩, hb, hm⟩⟩
  · intro f₂ hne hr h
    have hstep := deadStep_of_mem_findDeadFunctions hnodup hmem h
    rcases (deadStep_eq_some_iff.mp hstep).2.1 with h0 | ⟨rs, hrs, hlen, _⟩
    · rw [hr] at h0
      exact Option.noConfusion h0
    · rw [hr] at hrs
      injection hrs with hrs
      subst hrs
      simp at hlen

theorem c4_selffile_only_dead_second_file_live_witness :
    (mkDeadEntry ⟨"a.bas", "Private", "Sub", "a.Helper"⟩ ∈
      findDeadFunctions [("helper", ⟨"a.bas", "Private", "Sub", "a.Helper"⟩)] []
        [("helper", ["a.bas"])])
    ∧ (mkDeadEntry ⟨"a.bas", "Private", "Sub", "a.Helper"⟩ ∉
      findDeadFunctions [("helper", ⟨"a.bas", "Private", "Sub", "a.Helper"⟩)] []
        [("helper", ["a.bas", "b.bas"])]) :=
  ⟨(c4_selffile_only_dead_second_file_live
      [("helper", ⟨"a.bas", "Private", "Sub", "a.Helper"⟩)] []
      [("helper", ["a.bas"])] "helper" ⟨"a.bas", "Private", "Sub", "a.Helper"⟩
      (by decide) (by decide) (by decide) (by decide) (by decide)).1 rfl,
   (c4_selffile_only_dead_second_file_live
      [("helper", ⟨"a.bas", "Private", "Sub", "a.Helper"⟩)] []
      [("helper", ["a.bas", "b.bas"])] "helper" ⟨"a.bas", "Private", "Sub", "a.Helper"⟩
      (by decide) (by decide) (by decide) (by decide) (by decide)).2 "b.bas"
      (by decide) rfl⟩

/-- C8 counterexample: a file whose only non-empty line is a VB6 comment
(`'` followed by a commented-out declaration) still produces a
`dead_functions` finding in the dead-code detector — `_collect_declarations`
applies its patterns to raw content with no comment-line filtering. -/
theorem c8_counterexample_comment_line_produces_finding :
    ((linesOf "\x27 Sub Ghost()\n").all
        (fun l => l = "" || startsWithStr "\x27" (strip l)))
    ∧ (deadCodeAnalyze [utf8File "a.bas" "\x27 Sub Ghost()\n"]).map
        (fun e => e.name) = ["a.Ghost"] := by
  decide

end VB6

/-! ## `scripts/vb6_schema_extractor.py`

Embedding of `PATTERNS` (the entries used by `_analyze_file`: connection,
data_source, select, insert, update, delete, join, rs_field), the per-file
analysis `_analyze_file` including its final primary-key inference loop
(lines 240-244), and the walk of `analyze` over the VB6 source files.
Column/operation/source sets are insertion-ordered (see the header note);
the primary-key loop iterates the column set in that order. -/

namespace VB6

def notConnChar (c : Char) : Bool := !(c = ';' || c = '"' || isSpaceChar c)

/-- `PATTERNS['connection']`: `(?:Provider|Driver)\s*=\s*([^;"\s]+)`, ignorecase. -/
def connectionRE : RE :=
  .seq (.alt (.lit "Provider" true) (.lit "Driver" true))
    (.seq sstar (.seq (.lit "=" false) (.seq sstar (.grp 1 (.rep notConnChar true false)))))

/-- `PATTERNS['data_source']`: `Data\s*Source\s*=\s*([^;"\s]+)`, ignorecase. -/
def dataSourceRE : RE :=
  .seq (.lit "Data" true) (.seq sstar (.seq (.lit "Source" true)
    (.seq sstar (.seq (.lit "=" false) (.seq sstar (.grp 1 (.rep notConnChar true false)))))))

/-- `PATTERNS['select']`: `SELECT\s+(.+?)\s+FROM\s+(\w+)`, ignorecase + dotall. -/
def selectRE : RE :=
  .seq (.lit "SELECT" true) (.seq splus (.seq (.grp 1 dotPlusLazyAll)
    (.seq splus (.seq (.lit "FROM" true) (.seq splus (.grp 2 wplus))))))

/-- `PATTERNS['insert']`: `INSERT\s+INTO\s+(\w+)\s*\(([^)]+)\)`, ignorecase. -/
def insertRE : RE :=
  .seq (.lit "INSERT" true) (.seq splus (.seq (.lit "INTO" true) (.seq splus
    (.seq (.grp 1 wplus) (.seq sstar (.seq (.lit "(" false)
      (.seq (.grp 2 (.rep (fun c => !(c = ')')) true false)) (.lit ")" false))))))))

/-- `PATTERNS['update']`: `UPDATE\s+(\w+)\s+SET\s+(.+?)(?:WHERE|$)`,
ignorecase + dotall (`$` is Python's end-of-string-or-before-final-newline). -/
def updateRE : RE :=
  .seq (.lit "UPDATE" true) (.seq splus (.seq (.grp 1 wplus) (.seq splus
    (.seq (.lit "SET" true) (.seq splus
      (.seq (.grp 2 dotPlusLazyAll) (.alt (.lit "WHERE" true) .eos)))))))

/-- `PATTERNS['delete']`: `DELETE\s+FROM\s+(\w+)`, ignorecase. -/
def deleteRE : RE :=
  .seq (.lit "DELETE" true) (.seq splus (.seq (.lit "FROM" true) (.seq splus (.grp 1 wplus))))

/-- `PATTERNS['join']`:
`(?:INNER|LEFT|RIGHT|OUTER)?\s*JOIN\s+(\w+)\s+ON\s+(\w+)\.(\w+)\s*=\s*(\w+)\.(\w+)`. -/
def joinRE : RE :=
  .seq (.opt (altList true ["INNER", "LEFT", "RIGHT", "OUTER"]))
    (.seq sstar (.seq (.lit "JOIN" true) (.seq splus (.seq (.grp 1 wplus)
      (.seq splus (.seq (.lit "ON" true) (.seq splus (.seq (.grp 2 wplus)
        (.seq (.lit "." false) (.seq (.grp 3 wplus) (.seq sstar (.seq (.lit "=" false)
          (.seq sstar (.seq (.grp 4 wplus)
            (.seq (.lit "." false) (.grp 5 wplus))))))))))))))))

/-- `PATTERNS['rs_field']`: `rs!(\w+)|rs\("(\w+)"\)|rs\.Fields\("(\w+)"\)`, ignorecase. -/
def rsFieldRE : RE :=
  .alt (.seq (.lit "rs!" true) (.grp 1 wplus))
    (.alt (.seq (.lit "rs(\"" true) (.seq (.grp 2 wplus) (.lit "\")" true)))
      (.seq (.lit "rs.Fields(\"" true) (.seq (.grp 3 wplus) (.lit "\")" true))))

structure ForeignKey where
  column : String
  references_table : String
  references_column : String
deriving DecidableEq, Repr

structure Relationship where
  from_table : String
  from_column : String
  to_table : String
  to_column : String
  type : String
deriving DecidableEq, Repr

/-- Per-table record of the `self.tables` defaultdict (lines 86-92). -/
structure TableInfo where
  columns : List String
  primary_key : Option String
  foreign_keys : List ForeignKey
  operations : List String
  sources : List String
deriving DecidableEq, Repr

def emptyTable : TableInfo := ⟨[], none, [], [], []⟩

structure SchemaState where
  tables : List (String × TableInfo)
  relationships : List Relationship
  database_type : Option String
  data_sources : List String
deriving DecidableEq, Repr

/-- `self.tables[t]` access with defaultdict creation plus an update. -/
def tupd (tables : List (String × TableInfo)) (t : String) (f : TableInfo → TableInfo) :
    List (String × TableInfo) :=
  dupd tables t emptyTable f

def pkQualifies (t col : String) : Bool :=
  col = "id" || col = t ++ "id" || col = t ++ "_id"

/-- One table's pass of the primary-key loop (lines 241-244): every
qualifying column in iteration order overwrites `primary_key`. -/
def inferPK (t : String) (info : TableInfo) : TableInfo :=
  { info with
    primary_key := info.columns.foldl
      (fun pk col => if pkQualifies t col then some col else pk) info.primary_key }

/-- The full primary-key inference loop over all tables (lines 240-244),
run at the end of every `_analyze_file` call. -/
def inferPrimaryKeys (tables : List (String × TableInfo)) : List (String × TableInfo) :=
  tables.map fun p => (p.1, inferPK p.1 p.2)

/-- The column expression of the SELECT branch (lines 168-169):
`c.strip().split('.')[-1].split(' ')[0]`. -/
def selectColOf (c : String) : String :=
  ((splitStr ' ' (((splitStr '.' (strip c))).getLastD "")).headD "")

/-- Connection-string branch of `_analyze_file` (lines 143-152). -/
def connBranch (st : SchemaState) (content : String) : SchemaState :=
  (finditer connectionRE content).foldl (fun st m =>
    let provider := lowerStr ((groupOf m.2.2 1).getD "")
    if containsStr "jet" provider || containsStr "ace" provider then
      { st with database_type := some "Access" }
    else if containsStr "sqlserver" provider || containsStr "sqlncli" provider then
      { st with database_type := some "SQL Server" }
    else if containsStr "oracle" provider then
      { st with database_type := some "Oracle" }
    else if containsStr "mysql" provider then
      { st with database_type := some "MySQL" }
    else st) st

/-- Data-source branch of `_analyze_file` (lines 155-156). -/
def dataSourceBranch (st : SchemaState) (content : String) : SchemaState :=
  (finditer dataSourceRE content).foldl (fun st m =>
    { st with data_sources := oadd st.data_sources ((groupOf m.2.2 1).getD "") }) st

/-- SELECT branch of `_analyze_file` (lines 159-172). -/
def selectBranch (st : SchemaState) (src content : String) : SchemaState :=
  (finditer selectRE content).foldl (fun st m =>
    let columnsStr := strip ((groupOf m.2.2 1).getD "")
    let table := lowerStr (strip ((groupOf m.2.2 2).getD ""))
    let tables := tupd st.tables table fun i =>
      { i with operations := oadd i.operations "READ", sources := oadd i.sources src }
    let tables :=
      if columnsStr ≠ "*" then
        (splitStr ',' columnsStr).foldl (fun tbs c =>
          let col := selectColOf c
          if col ≠ "" && lowerStr col ∉ ["as", "distinct"] then
            tupd tbs table fun i => { i with columns := oadd i.columns (lowerStr col) }
          else tbs) tables
      else tables
    { st with tables := tables }) st

/-- INSERT branch of `_analyze_file` (lines 175-184). -/
def insertBranch (st : SchemaState) (src content : String) : SchemaState :=
  (finditer insertRE content).foldl (fun st m =>
    let table := lowerStr (strip ((groupOf m.2.2 1).getD ""))
    let columnsStr := strip ((groupOf m.2.2 2).getD "")
    let tables := tupd st.tables table fun i =>
      { i with operations := oadd i.operations "CREATE", sources := oadd i.sources src }
    let tables := (splitStr ',' columnsStr).foldl (fun tbs c =>
      tupd tbs table fun i =>
        { i with columns := oadd i.columns (lowerStr (strip c)) }) tables
    { st with tables := tables }) st

/-- UPDATE branch of `_analyze_file` (lines 187-199). -/
def updateBranch (st : SchemaState) (src content : String) : SchemaState :=
  (finditer updateRE content).foldl (fun st m =>
    let table := lowerStr (strip ((groupOf m.2.2 1).getD ""))
    let setClause := strip ((groupOf m.2.2 2).getD "")
    let tables := tupd st.tables table fun i =>
      { i with operations := oadd i.operations "UPDATE", sources := oadd i.sources src }
    let tables := (splitStr ',' setClause).foldl (fun tbs part =>
      if containsStr "=" part then
        tupd tbs table fun i =>
          { i with columns := oadd i.columns (lowerStr (strip ((splitStr '=' part).headD ""))) }
      else tbs) tables
    { st with tables := tables }) st

/-- DELETE branch of `_analyze_file` (lines 202-205). -/
def deleteBranch (st : SchemaState) (src content : String) : SchemaState :=
  (finditer deleteRE content).foldl (fun st m =>
    let table := lowerStr (strip ((groupOf m.2.2 1).getD ""))
    { st with tables := tupd st.tables table fun i =>
        { i with operations := oadd i.operations "DELETE", sources := oadd i.sources src } }) st

/-- JOIN branch of `_analyze_file` (lines 208-229). -/
def joinBranch (st : SchemaState) (content : String) : SchemaState :=
  (finditer joinRE content).foldl (fun st m =>
    let joined := lowerStr ((groupOf m.2.2 1).getD "")
    let t1 := lowerStr ((groupOf m.2.2 2).getD "")
    let c1 := lowerStr ((groupOf m.2.2 3).getD "")
    let t2 := lowerStr ((groupOf m.2.2 4).getD "")
    let c2 := lowerStr ((groupOf m.2.2 5).getD "")
    let st := { st with relationships := st.relationships ++ [⟨t1, c1, t2, c2, "JOIN"⟩] }
    if endsWithStr "id" (lowerStr c1) && t1 ≠ joined then
      { st with tables := tupd st.tables t1 fun i =>
          { i with foreign_keys := i.foreign_keys ++ [⟨c1, joined, c2⟩] } }
    else st) st

/-- Recordset-field branch of `_analyze_file` (lines 232-238). -/
def rsFieldBranch (st : SchemaState) (src content : String) : SchemaState :=
  (finditer rsFieldRE content).foldl (fun st m =>
    let field :=
      match groupOf m.2.2 1 with
      | some f => some f
      | none =>
        match groupOf m.2.2 2 with
        | some f => some f
        | none => groupOf m.2.2 3
    match field with
    | some f =>
      { st with tables := st.tables.map fun p =>
          if src ∈ p.2.sources then
            (p.1, { p.2 with columns := oadd p.2.columns (lowerStr f) })
          else p }
    | none => st) st

/-- `_analyze_file` (lines 134-244): the branches in source order followed by
the primary-key inference loop. -/
def schemaAnalyzeFile (st : SchemaState) (src content : String) : SchemaState :=
  let st := connBranch st content
  let st := dataSourceBranch st content
  let st := selectBranch st src content
  let st := insertBranch st src content
  let st := updateBranch st src content
  let st := deleteBranch st src content
  let st := joinBranch st content
  let st := rsFieldBranch st src content
  { st with tables := inferPrimaryKeys st.tables }

/-- `analyze` (lines 97-107): fold `_analyze_file` over the VB6 files. -/
def schemaAnalyze (files : List VFile) : SchemaState :=
  files.foldl (fun st f =>
    if suffixOf f.name ∈ vbExts then
      match readVFile f with
      | some content => schemaAnalyzeFile st f.name content
      | none => st
    else st) ⟨[], [], none, []⟩

end VB6

/-! ### Schema extractor: claim theorems -/

namespace VB6

/-- An overwrite-fold keeps the last element satisfying `q`, falling back to
its initial value. -/
theorem foldl_overwrite_eq_getLast (q : String → Bool) (l : List String)
    (init : Option String) :
    l.foldl (fun pk col => if q col then some col else pk) init
      = ((l.filter q).getLast? <|> init) := by
  induction l using List.reverseRecOn generalizing init with
  | nil => simp
  | append_singleton l c ih =>
    rw [List.foldl_append, List.foldl_cons, List.foldl_nil, List.filter_append]
    by_cases hq : q c
    · simp [hq, List.getLast?_concat]
    · simp [hq, ih]

/-- C2 counterexample: the table `orders` is first seen (file `a.bas`) with
qualifying column `id`, and the extractor infers primary key `id`; after a
later file (`b.bas`) contributes the qualifying column `ordersid`, the
re-run primary-key loop overwrites the inference with `ordersid` — the
claimed first-match-wins policy does not hold. -/
theorem c2_counterexample_pk_changes_with_later_file :
    ((dget (schemaAnalyze
        [utf8File "a.bas" "sql = \"SELECT id FROM orders\"\n"]).tables "orders").map
      (fun i => i.primary_key) = some (some "id"))
    ∧ ((dget (schemaAnalyze
        [utf8File "a.bas" "sql = \"SELECT id FROM orders\"\n",
         utf8File "b.bas" "sql = \"SELECT ordersid FROM orders\"\n"]).tables "orders").map
      (fun i => i.primary_key) = some (some "ordersid"))
    ∧ ((dget (schemaAnalyze
        [utf8File "a.bas" "sql = \"SELECT id FROM orders\"\n",
         utf8File "b.bas" "sql = \"SELECT ordersid FROM orders\"\n"]).tables "orders").map
      (fun i => i.primary_key) ≠ some (some "id")) := by
  refine ⟨by decide, by decide, by decide⟩

/-- C2 (amended): the primary-key loop runs after every analyzed file and
assigns, for each table, the last qualifying column (`id`, `<table>id`, or
`<table>_id`) in the column set's iteration order, keeping the previous
inference only when no column qualifies; a qualifying column arriving in a
later file can therefore replace an earlier inference, as the `orders`
example shows. -/
theorem c2_pk_inference_is_last_qualifier_not_first_match :
    (∀ tables : List (String × TableInfo),
      inferPrimaryKeys tables
        = tables.map (fun p => (p.1,
            { p.2 with primary_key :=
                ((p.2.columns.filter (pkQualifies p.1)).getLast? <|> p.2.primary_key) })))
    ∧ ((dget (schemaAnalyze
        [utf8File "a.bas" "sql = \"SELECT id FROM orders\"\n",
         utf8File "b.bas" "sql = \"SELECT ordersid FROM orders\"\n"]).tables "orders").map
      (fun i => i.primary_key) = some (some "ordersid")) := by
  constructor
  · intro tables
    simp only [inferPrimaryKeys, inferPK, foldl_overwrite_eq_getLast]
  · decide

end VB6

/-! ## `scripts/vb6_dependency_graph.py`

Embedding of `PATTERNS`, `_collect_nodes`, `_find_edges`, `_detect_cycles`
and the node/edge assembly of `analyze`.  The recursive Python `dfs` carries
its `visited` / `rec_stack` / `path` state across calls — including across
roots, since the function's early `return` skips the stack-popping cleanup —
and the embedding reproduces exactly that threading, with a fuel argument
(`nodes.length` suffices: every call visits a previously unvisited node). -/

namespace VB6

/-- `PATTERNS['module_call']`: `\b(mod\w+)\.(\w+)`, ignorecase. -/
def moduleCallRE : RE :=
  .seq .wordB (.seq (.grp 1 (.seq (.lit "mod" true) wplus))
    (.seq (.lit "." false) (.grp 2 wplus)))

/-- `PATTERNS['form_reference']`: `\b(frm\w+)\.(\w+)`, ignorecase. -/
def formReferenceRE : RE :=
  .seq .wordB (.seq (.grp 1 (.seq (.lit "frm" true) wplus))
    (.seq (.lit "." false) (.grp 2 wplus)))

/-- `PATTERNS['form_show']`: `(\w+)\.Show\b`, ignorecase. -/
def formShowRE : RE :=
  .seq (.grp 1 wplus) (.seq (.lit "." false) (.seq (.lit "Show" true) .wordB))

/-- `PATTERNS['load_form']`: `Load\s+(\w+)`, ignorecase. -/
def loadFormRE : RE := .seq (.lit "Load" true) (.seq splus (.grp 1 wplus))

/-- `PATTERNS['call_statement']` of this script (`Call\s+(\w+)\.(\w+)`) is
declared but never used by `_find_edges`, so it is not modelled. -/
structure NodeInfo where
  type : String
  file : String
deriving DecidableEq, Repr

/-- One file's step of `_collect_nodes` (lines 94-107). -/
def nodeStep (nodes : List (String × NodeInfo)) (f : VFile) : List (String × NodeInfo) :=
  let ext := suffixOf f.name
  let name := lowerStr (stemOf f.name)
  if ext = ".frm" then dput nodes name ⟨"Form", f.name⟩
  else if ext = ".bas" then dput nodes name ⟨"Module", f.name⟩
  else if ext = ".cls" then dput nodes name ⟨"Class", f.name⟩
  else if ext = ".ctl" then dput nodes name ⟨"Control", f.name⟩
  else nodes

/-- `_collect_nodes` (lines 91-107). -/
def collectNodes (files : List VFile) : List (String × NodeInfo) :=
  files.foldl nodeStep []

abbrev EdgeKey := String × String × String

abbrev EdgeCounts := List (EdgeKey × Nat)

/-- `self.edge_counts[(source, target, kind)] += 1`. -/
def ebump (ec : EdgeCounts) (k : EdgeKey) : EdgeCounts :=
  dupd ec k 0 (· + 1)

/-- One pattern's loop inside `_find_edges`: count an edge for each matched
target that is a known node different from the source. -/
def edgePattern (nodes : List (String × NodeInfo)) (source kind : String) (re : RE)
    (content : String) (ec : EdgeCounts) : EdgeCounts :=
  (finditer re content).foldl (fun ec m =>
    let target := lowerStr ((groupOf m.2.2 1).getD "")
    if target ≠ source ∧ (dget nodes target).isSome then
      ebump ec (source, target, kind)
    else ec) ec

/-- One file's step of `_find_edges` (lines 111-146). -/
def edgeStep (nodes : List (String × NodeInfo)) (ec : EdgeCounts) (f : VFile) :
    EdgeCounts :=
  if suffixOf f.name ∈ vbExts then
    match readVFile f with
    | none => ec
    | some content =>
      let source := lowerStr (stemOf f.name)
      let ec := edgePattern nodes source "calls" moduleCallRE content ec
      let ec := edgePattern nodes source "references" formReferenceRE content ec
      let ec := edgePattern nodes source "shows" formShowRE content ec
      edgePattern nodes source "loads" loadFormRE content ec
  else ec

def findEdges (nodes : List (String × NodeInfo)) (files : List VFile) : EdgeCounts :=
  files.foldl (edgeStep nodes) []

/-- The recursion state shared by every `dfs` call (lines 157-159). -/
structure DfsState where
  visited : List String
  recStack : List String
  path : List String
deriving DecidableEq, Repr

structure Cycle where
  nodes : List String
  description : String
deriving DecidableEq, Repr

/-- Python `list.index` (total model; `_detect_cycles` only calls it on
elements of the list). -/
def idxOfStr (l : List String) (x : String) : Nat :=
  match l with
  | [] => 0
  | a :: r => if a = x then 0 else idxOfStr r x + 1

/-- Adjacency sets built from the edge-count keys (lines 153-155). -/
def buildAdj (ec : EdgeCounts) : List (String × List String) :=
  ec.foldl (fun adj p => dupd adj p.1.1 [] (fun s => oadd s p.1.2.1)) []

/-- `dfs` (lines 161-178): mark the node visited and on the stack, scan its
neighbours, return the first cycle found; the early return on a found cycle
skips the `path.pop()` / `rec_stack.remove` cleanup, exactly as in the
source. -/
def dfsF (adj : List (String × List String)) : Nat → String → DfsState →
    Option (List String) × DfsState
  | 0, _, st => (none, st)
  | fuel + 1, node, st₀ =>
    let st : DfsState :=
      ⟨oadd st₀.visited node, oadd st₀.recStack node, st₀.path ++ [node]⟩
    let r := ((dget adj node).getD []).foldl (fun acc n =>
      match acc with
      | (some c, s) => (some c, s)
      | (none, s) =>
        if n ∈ s.visited then
          if n ∈ s.recStack then
            (some (s.path.drop (idxOfStr s.path n) ++ [n]), s)
          else (none, s)
        else dfsF adj fuel n s) ((none : Option (List String)), st)
    match r with
    | (some c, st') => (some c, st')
    | (none, st') => (none, ⟨st'.visited, st'.recStack.erase node, st'.path.dropLast⟩)

/-- The per-root body of the loop in `_detect_cycles` (lines 180-187). -/
def detectStep (adj : List (String × List String)) (fuel : Nat)
    (acc : List Cycle × DfsState) (p : String × NodeInfo) : List Cycle × DfsState :=
  if p.1 ∈ acc.2.visited then acc
  else
    match dfsF adj fuel p.1 acc.2 with
    | (some c, st') => (acc.1 ++ [⟨c, String.intercalate " → " c⟩], st')
    | (none, st') => (acc.1, st')

/-- `_detect_cycles` (lines 148-189). -/
def detectCycles (nodes : List (String × NodeInfo)) (ec : EdgeCounts) : List Cycle :=
  (nodes.foldl (detectStep (buildAdj ec) nodes.length)
    (([] : List Cycle), (⟨[], [], []⟩ : DfsState))).1

structure DepNode where
  id : String
  type : String
  file : String
deriving DecidableEq, Repr

structure DepEdge where
  source : String
  target : String
  type : String
  count : Nat
deriving DecidableEq, Repr

structure DepResult where
  nodes : List DepNode
  edges : List DepEdge
  cycles : List Cycle
deriving DecidableEq, Repr

/-- `analyze` (lines 52-89), restricted to the nodes, edges and
circular-dependency components of its result. -/
def depAnalyze (files : List VFile) : DepResult :=
  let nodes := collectNodes files
  let ec := findEdges nodes files
  let cycles := detectCycles nodes ec
  { nodes := nodes.map fun p => ⟨p.1, p.2.type, p.2.file⟩
    edges := ec.map fun p => ⟨p.1.1, p.1.2.1, p.1.2.2, p.2⟩
    cycles := cycles }

end VB6

/-! ### Dependency graph: claim theorems -/

namespace VB6

theorem foldl_preserves_mem {γ δ : Type} (step : δ → γ → δ) (P : δ → Prop)
    (l : List γ) (hstep : ∀ d x, x ∈ l → P d → P (step d x)) :
    ∀ d, P d → P (l.foldl step d) := by
  induction l with
  | nil => intro d h; simpa using h
  | cons x l ih =>
    intro d h
    rw [List.foldl_cons]
    exact ih (fun d y hy => hstep d y (List.mem_cons_of_mem x hy))
      (step d x) (hstep d x (List.mem_cons_self x l) h)

theorem dget_dput {α β : Type} [DecidableEq α] (l : List (α × β)) (k j : α) (v : β) :
    dget (dput l k v) j = if k = j then some v else dget l j := by
  induction l with
  | nil => simp [dput, dget]
  | cons p l ih =>
    obtain ⟨k', v'⟩ := p
    by_cases hk : k' = k
    · subst hk
      by_cases hj : k' = j <;> simp [dput, dget, hj]
    · by_cases hj : k' = j
      · subst hj
        have : ¬ k = k' := fun h => hk h.symm
        simp [dput, dget, hk, this]
      · simp [dput, dget, hk, hj, ih]

theorem dget_dput_self {α β : Type} [DecidableEq α] (l : List (α × β)) (k : α) (v : β) :
    dget (dput l k v) k = some v := by
  simp [dget_dput]

theorem dget_dput_isSome {α β : Type} [DecidableEq α] (l : List (α × β)) (k j : α)
    (v : β) (h : (dget l j).isSome) : (dget (dput l k v) j).isSome := by
  rw [dget_dput]
  split <;> simp [h]

theorem nodeStep_pres {nodes : List (String × NodeInfo)} {f : VFile} {j : String}
    (h : (dget nodes j).isSome) : (dget (nodeStep nodes f) j).isSome := by
  unfold nodeStep
  dsimp only
  split_ifs
  all_goals first
    | exact dget_dput_isSome _ _ _ _ h
    | exact h

theorem nodeStep_self {nodes : List (String × NodeInfo)} {f : VFile}
    (hext : suffixOf f.name ∈ vbExts) :
    (dget (nodeStep nodes f) (lowerStr (stemOf f.name))).isSome := by
  unfold nodeStep
  dsimp only
  rcases (by simpa [vbExts] using hext : suffixOf f.name = ".frm" ∨ suffixOf f.name = ".bas"
      ∨ suffixOf f.name = ".cls" ∨ suffixOf f.name = ".ctl") with h | h | h | h <;>
    simp [h, dget_dput_self]

/-- Every VB6 file in the walk ends up as a node under its lowercased stem. -/
theorem collectNodes_contains {files : List VFile} {f : VFile} (hf : f ∈ files)
    (hext : suffixOf f.name ∈ vbExts) :
    (dget (collectNodes files) (lowerStr (stemOf f.name))).isSome := by
  obtain ⟨s, t, rfl⟩ := List.append_of_mem hf
  unfold collectNodes
  rw [List.foldl_append, List.foldl_cons]
  exact foldl_preserves_mem nodeStep
    (fun nodes => (dget nodes (lowerStr (stemOf f.name))).isSome = true) t
    (fun d x _ h => nodeStep_pres h)
    (nodeStep (List.foldl nodeStep [] s) f) (nodeStep_self hext)

theorem mem_dupd {α β : Type} [DecidableEq α] {l : List (α × β)} {k : α} {d : β}
    {f : β → β} {p : α × β} (h : p ∈ dupd l k d f) :
    p ∈ l ∨ (p.1 = k ∧ (p.2 = f d ∨ ∃ v, (k, v) ∈ l ∧ p.2 = f v)) := by
  induction l with
  | nil =>
    simp [dupd] at h
    subst h
    exact Or.inr ⟨rfl, Or.inl rfl⟩
  | cons q l ih =>
    obtain ⟨k', v'⟩ := q
    by_cases hk : k' = k
    · subst hk
      simp [dupd] at h
      rcases h with h | h
      · subst h
        exact Or.inr ⟨rfl, Or.inr ⟨v', by simp⟩⟩
      · exact Or.inl (List.mem_cons_of_mem _ h)
    · simp [dupd, hk] at h
      rcases h with h | h
      · exact Or.inl (by simp [h])
      · rcases ih h with h' | ⟨h1, h2⟩
        · exact Or.inl (List.mem_cons_of_mem _ h')
        · refine Or.inr ⟨h1, ?_⟩
          rcases h2 with h2 | ⟨v, hv, hv2⟩
          · exact Or.inl h2
          · exact Or.inr ⟨v, List.mem_cons_of_mem _ hv, hv2⟩

/-- The well-formedness invariant of the edge-count table, relative to a
node table. -/
def EdgeInv (nodes : List (String × NodeInfo)) (ec : EdgeCounts) : Prop :=
  ∀ p ∈ ec, p.1.1 ≠ p.1.2.1 ∧ (dget nodes p.1.1).isSome
    ∧ (dget nodes p.1.2.1).isSome ∧ 0 < p.2

theorem ebump_inv {nodes : List (String × NodeInfo)} {ec : EdgeCounts} {k : EdgeKey}
    (hec : EdgeInv nodes ec)
    (hk : k.1 ≠ k.2.1 ∧ (dget nodes k.1).isSome ∧ (dget nodes k.2.1).isSome) :
    EdgeInv nodes (ebump ec k) := by
  intro p hp
  rcases mem_dupd hp with h | ⟨h1, h2⟩
  · exact hec p h
  · have hpos : 0 < p.2 := by
      rcases h2 with h2 | ⟨v, _, hv⟩ <;> omega
    rw [show p = (p.1, p.2) from rfl, h1]
    exact ⟨hk.1, hk.2.1, hk.2.2, hpos⟩

theorem edgePattern_inv {nodes : List (String × NodeInfo)} {source kind : String}
    {re : RE} {content : String} {ec : EdgeCounts}
    (hsrc : (dget nodes source).isSome) (hec : EdgeInv nodes ec) :
    EdgeInv nodes (edgePattern nodes source kind re content ec) := by
  unfold edgePattern
  refine foldl_preserves_mem _ (EdgeInv nodes) _ (fun ec m _ h => ?_) ec hec
  dsimp only
  split
  · next hcond =>
    exact ebump_inv h ⟨Ne.symm hcond.1, hsrc, hcond.2⟩
  · exact h

theorem edgeStep_inv {files : List VFile} {ec : EdgeCounts} {f : VFile}
    (hf : f ∈ files) (hec : EdgeInv (collectNodes files) ec) :
    EdgeInv (collectNodes files) (edgeStep (collectNodes files) ec f) := by
  unfold edgeStep
  split
  · next hext =>
    split
    · exact hec
    · have hsrc := collectNodes_contains hf hext
      exact edgePattern_inv hsrc (edgePattern_inv hsrc (edgePattern_inv hsrc
        (edgePattern_inv hsrc hec)))
  · exact hec

theorem findEdges_inv (files : List VFile) :
    EdgeInv (collectNodes files) (findEdges (collectNodes files) files) := by
  unfold findEdges
  refine foldl_preserves_mem _ (EdgeInv (collectNodes files)) files
    (fun ec f hf h => edgeStep_inv hf h) [] ?_
  intro p hp
  simp at hp

theorem exists_of_dget_isSome {α β : Type} [DecidableEq α] {l : List (α × β)} {k : α}
    (h : (dget l k).isSome) : ∃ v, (k, v) ∈ l := by
  induction l with
  | nil => simp [dget] at h
  | cons p l ih =>
    obtain ⟨k', v'⟩ := p
    by_cases hk : k' = k
    · subst hk
      exact ⟨v', by simp⟩
    · simp [dget, hk] at h
      obtain ⟨v, hv⟩ := ih h
      exact ⟨v, List.mem_cons_of_mem _ hv⟩

/-- C10: every edge emitted by the dependency-graph builder has distinct
source and target, both present as ids in the emitted node list, and a
strictly positive count. -/
theorem c10_every_edge_wellformed (files : List VFile) :
    ∀ e ∈ (depAnalyze files).edges,
      e.source ≠ e.target
      ∧ (∃ n ∈ (depAnalyze files).nodes, n.id = e.source)
      ∧ (∃ n ∈ (depAnalyze files).nodes, n.id = e.target)
      ∧ 0 < e.count := by
  intro e he
  simp only [depAnalyze, List.mem_map] at he
  obtain ⟨p, hp, rfl⟩ := he
  obtain ⟨hne, hs, ht, hc⟩ := findEdges_inv files p hp
  obtain ⟨vs, hvs⟩ := exists_of_dget_isSome hs
  obtain ⟨vt, hvt⟩ := exists_of_dget_isSome ht
  refine ⟨hne, ⟨⟨p.1.1, vs.type, vs.file⟩, ?_, rfl⟩, ⟨⟨p.1.2.1, vt.type, vt.file⟩, ?_, rfl⟩, hc⟩
  · simp only [depAnalyze, List.mem_map]
    exact ⟨(p.1.1, vs), hvs, rfl⟩
  · simp only [depAnalyze, List.mem_map]
    exact ⟨(p.1.2.1, vt), hvt, rfl⟩

theorem c10_every_edge_wellformed_witness :
    let files := [utf8File "frmA.frm" "frmB.Show", utf8File "frmB.frm" ""]
    let e : DepEdge := ⟨"frma", "frmb", "references", 1⟩
    e.source ≠ e.target
    ∧ (∃ n ∈ (depAnalyze files).nodes, n.id = e.source)
    ∧ (∃ n ∈ (depAnalyze files).nodes, n.id = e.target)
    ∧ 0 < e.count :=
  c10_every_edge_wellformed [utf8File "frmA.frm" "frmB.Show", utf8File "frmB.frm" ""]
    ⟨"frma", "frmb", "references", 1⟩ (by decide)

theorem foldl_detectStep_len (adj : List (String × List String)) (fuel : Nat) :
    ∀ (l : List (String × NodeInfo)) (acc : List Cycle × DfsState),
      ((l.foldl (detectStep adj fuel) acc).1).length ≤ acc.1.length + l.length := by
  intro l
  induction l with
  | nil => intro acc; simp
  | cons p l ih =>
    intro acc
    rw [List.foldl_cons]
    have hstep : ((detectStep adj fuel acc p).1).length ≤ acc.1.length + 1 := by
      unfold detectStep
      split
      · omega
      · split <;> simp
    have := ih (detectStep adj fuel acc p)
    simp only [List.length_cons]
    omega

/-- C5: the cycle detector reports at most one cycle per root (so never more
cycles than nodes), and on the three-node graph built from
`frmA → frmB → frmC → frmA` it reports exactly one cycle, covering all three
nodes in traversal order with the repeated node closing the path. -/
theorem c5_first_cycle_per_root_and_three_node_example :
    (∀ (nodes : List (String × NodeInfo)) (ec : EdgeCounts),
      (detectCycles nodes ec).length ≤ nodes.length)
    ∧ (depAnalyze [utf8File "frmA.frm" "frmB.Show", utf8File "frmB.frm" "frmC.Show",
        utf8File "frmC.frm" "frmA.Show"]).cycles
      = [⟨["frma", "frmb", "frmc", "frma"], "frma → frmb → frmc → frma"⟩] := by
  constructor
  · intro nodes ec
    unfold detectCycles
    have := foldl_detectStep_len (buildAdj ec) nodes.length nodes ([], ⟨[], [], []⟩)
    simpa using this
  · decide

end VB6

/-! ## `scripts/detect_stack.py` and `_discover_files` of
`scripts/vb6_comprehensive_scanner.py`

The directory tree is a rose tree; `os.walk` is the preorder traversal
yielding, for every file, its directory path (components below the root) and
its (name, size).  `detect_stack` removes `node_modules`, `.git`, `bin`,
`obj` from `dirs` before descending; since `os.walk` never yields duplicate
directory names inside one directory, Python's remove-first
(`dirs.remove(name)`) is the same as skipping every subdirectory with a
pruned name, which is how the embedding expresses it.
`_discover_files` walks with no pruning at all. -/

namespace VB6

inductive FTree where
  | mk (dirs : List (String × FTree)) (files : List (String × Nat)) : FTree

/-- An `os.walk` file entry: directory components below the root, file name,
file size. -/
abbrev WalkEntry := List String × String × Nat

mutual

/-- Unpruned `os.walk` (as used by `_discover_files`, lines 267-288). -/
def walkEntries (pre : List String) : FTree → List WalkEntry
  | .mk dirs files => files.map (fun f => (pre, f.1, f.2)) ++ walkEntriesL pre dirs

def walkEntriesL (pre : List String) : List (String × FTree) → List WalkEntry
  | [] => []
  | (d, t) :: rest => walkEntries (pre ++ [d]) t ++ walkEntriesL pre rest

end

/-- The directory names pruned by `detect_stack` (lines 15-18). -/
def prunedDirs : List String := ["node_modules", ".git", "bin", "obj"]

mutual

/-- `os.walk` with `detect_stack`'s pruning (lines 13-18): subdirectories
named in `prunedDirs` are not descended into. -/
def walkPruned (pre : List String) : FTree → List WalkEntry
  | .mk dirs files => files.map (fun f => (pre, f.1, f.2)) ++ walkPrunedL pre dirs

def walkPrunedL (pre : List String) : List (String × FTree) → List WalkEntry
  | [] => []
  | (d, t) :: rest =>
    (if d ∈ prunedDirs then [] else walkPruned (pre ++ [d]) t) ++ walkPrunedL pre rest

end

/-- The extension counting of `detect_stack` (lines 20-23). -/
def detectStackCounts (t : FTree) : List (String × Nat) :=
  (walkPruned [] t).foldl (fun counts e =>
    let ext := suffixOf e.2.1
    if ext ≠ "" then dupd counts ext 0 (· + 1) else counts) []

/-- The stack heuristics of `detect_stack` (lines 26-37). -/
def detectStack (t : FTree) : String :=
  let g := fun ext => (dget (detectStackCounts t) ext).getD 0
  if g ".vbp" > 0 || g ".frm" > 0 then "vb6"
  else if g ".cs" > 0 && g ".csproj" > 0 then "csharp"
  else if g ".java" > 0 then "java"
  else if g ".py" > 0 then "python"
  else if g ".ts" > 0 || g ".js" > 0 then "javascript"
  else "unknown"

/-- `FILE_CATEGORIES` of the comprehensive scanner (extension lists, in
definition order). -/
def fileCategories : List (String × List String) :=
  [("project", [".vbp", ".vbg", ".vbw"]),
   ("forms", [".frm", ".frx"]),
   ("modules", [".bas"]),
   ("classes", [".cls"]),
   ("controls", [".ctl", ".ctx"]),
   ("designers", [".dsr", ".dsx", ".pag", ".pgx"]),
   ("resources", [".res", ".rpt"]),
   ("dependencies", [".ocx", ".dll", ".tlb", ".oca", ".dca"]),
   ("assets", [".ico", ".gif", ".jpg", ".jpeg", ".png", ".bmp", ".cur"]),
   ("help", [".chm", ".hlp"]),
   ("documentation", [".txt", ".log", ".doc", ".rtf", ".readme"]),
   ("executables", [".exe"]),
   ("temporary", [".tmp", ".scc"])]

/-- The first matching category, else `unknown` (lines 273-277). -/
def categoryOf (ext : String) : String :=
  match fileCategories.find? (fun c => ext ∈ c.2) with
  | some c => c.1
  | none => "unknown"

structure FileInfo where
  name : String
  path : String
  relativePath : String
  extension : String
  sizeBytes : Nat
  category : String
deriving DecidableEq, Repr

/-- `_discover_files` (lines 261-288): the per-category file lists, built by
the unpruned walk (path separator modelled as `/`). -/
def discoverFiles (root : String) (t : FTree) : List (String × List FileInfo) :=
  (walkEntries [] t).foldl (fun inv e =>
    let ext := suffixOf e.2.1
    let cat := categoryOf ext
    let fi : FileInfo :=
      { name := e.2.1
        path := String.intercalate "/" (root :: e.1 ++ [e.2.1])
        relativePath := String.intercalate "/" (e.1 ++ [e.2.1])
        extension := ext
        sizeBytes := e.2.2
        category := cat }
    dupd inv cat [] (fun fs => fs ++ [fi])) []

end VB6

/-! ### File walks: claim theorems -/

namespace VB6

mutual

theorem walkPruned_sound (pre : List String) (t : FTree) :
    ∀ e ∈ walkPruned pre t, ∃ suf, e.1 = pre ++ suf ∧ ∀ d ∈ suf, d ∉ prunedDirs := by
  match t with
  | .mk dirs files =>
    intro e he
    rw [walkPruned, List.mem_append] at he
    rcases he with he | he
    · obtain ⟨f, _, rfl⟩ := List.mem_map.mp he
      exact ⟨[], by simp⟩
    · exact walkPrunedL_sound pre dirs e he

theorem walkPrunedL_sound (pre : List String) (l : List (String × FTree)) :
    ∀ e ∈ walkPrunedL pre l, ∃ suf, e.1 = pre ++ suf ∧ ∀ d ∈ suf, d ∉ prunedDirs := by
  match l with
  | [] => intro e he; rw [walkPrunedL] at he; exact absurd he (List.not_mem_nil e)
  | (d, t) :: rest =>
    intro e he
    rw [walkPrunedL, List.mem_append] at he
    rcases he with he | he
    · by_cases hd : d ∈ prunedDirs
      · rw [if_pos hd] at he
        exact absurd he (List.not_mem_nil e)
      · rw [if_neg hd] at he
        obtain ⟨suf, hsuf, hall⟩ := walkPruned_sound (pre ++ [d]) t e he
        refine ⟨d :: suf, by simpa using hsuf, ?_⟩
        intro x hx
        rcases List.mem_cons.mp hx with rfl | hx
        · exact hd
        · exact hall x hx
    · exact walkPrunedL_sound pre rest e he

end

/-- C6 (amended): `detect_stack`'s traversal prunes directories named
`node_modules`, `.git`, `bin`, `obj`, so no walked file lies beneath one of
them; the comprehensive scanner's `_discover_files` does not prune (see the
counterexample theorem). -/
theorem c6_detect_stack_walk_never_enters_pruned_dirs
    (t : FTree) (e : WalkEntry) (he : e ∈ walkPruned [] t) :
    ∀ d ∈ e.1, d ∉ prunedDirs := by
  obtain ⟨suf, hsuf, hall⟩ := walkPruned_sound [] t e he
  simpa [hsuf] using hall

theorem c6_detect_stack_walk_never_enters_pruned_dirs_witness :
    "src2" ∉ prunedDirs :=
  c6_detect_stack_walk_never_enters_pruned_dirs
    (.mk [("src2", .mk [] [("b.bas", 1)])] [("a.vbp", 1)])
    (["src2"], "b.bas", 1) (by decide) "src2" (by decide)

/-- C6 counterexample: the comprehensive scanner's `_discover_files` walks
into a directory named `node_modules` and lists the file beneath it in its
inventory (category `modules`), contradicting the claim that every scanner
prunes such directories. -/
theorem c6_counterexample_scanner_inventory_includes_node_modules :
    ((dget (discoverFiles "src"
        (.mk [("node_modules", .mk [] [("a.bas", 10)])] [("main.vbp", 5)]))
        "modules").getD []).map (fun fi => fi.relativePath)
      = ["node_modules/a.bas"] := by
  decide

end VB6

/-! ## Cache layer of `scripts/vb6_comprehensive_scanner.py`

`scan` discovers files, computes the metadata fingerprint
(`_calculate_source_hash`: per-file `name + size + mtime` strings over the
path-sorted file list; the md5 digest is modelled by the digested sequence
itself), and consults `_load_from_cache`: a cache hit returns the cached
analysis with no call into the parse phases, anything else (absent cache,
unreadable/corrupt cache — `json.load` raising is caught and treated as a
miss — or a different hash) runs the full pipeline and then
`_save_to_cache`, whose own failure is swallowed.  The parse pipeline
(`_parse_project_files` … `_assess_risks`) is a pure function of the
discovered files and enters only as the parameter `fullScan`; its reads of
source files are counted by `engineReadCount` (one `_read_file` per `.vbp`,
`.frm`, `.bas`, `.cls` file, exactly the files the four parse phases open).
Python's float `getmtime` is modelled as an integer timestamp. -/

namespace VB6

structure ScanFile where
  name : String
  path : String
  sizeBytes : Nat
  mtime : Nat
deriving DecidableEq, Repr

/-- Lexicographic byte order on paths, for the `all_files.sort` in
`_calculate_source_hash`. -/
def strLeB : List Char → List Char → Bool
  | [], _ => true
  | _ :: _, [] => false
  | a :: as, b :: bs =>
    if a.toNat < b.toNat then true
    else if b.toNat < a.toNat then false
    else strLeB as bs

def insertByPath (f : ScanFile) : List ScanFile → List ScanFile
  | [] => [f]
  | g :: rest =>
    if strLeB f.path.data g.path.data then f :: g :: rest else g :: insertByPath f rest

def sortByPath (files : List ScanFile) : List ScanFile :=
  files.foldr insertByPath []

/-- `f"{f['name']}{f['size_bytes']}{os.path.getmtime(f['path'])}"`. -/
def fileFingerprint (f : ScanFile) : String :=
  f.name ++ toString f.sizeBytes ++ toString f.mtime

/-- `_calculate_source_hash` (lines 210-225), with the md5 digest modelled
by the sequence of hashed per-file strings. -/
def fingerprint (files : List ScanFile) : List String :=
  (sortByPath files).map fileFingerprint

/-- The parsed content of the scanner's cache file; an unreadable or corrupt
cache file (`json.load` raises, caught at lines 241-242) is `none`. -/
structure CacheRec (α : Type) where
  sourceHash : List String
  analysis : α
deriving DecidableEq, Repr

/-- `_load_from_cache` (lines 227-244). -/
def loadFromCache {α : Type} [DecidableEq α] (fp : List String) :
    Option (CacheRec α) → Option α
  | none => none
  | some c => if c.sourceHash = fp then some c.analysis else none

/-- The number of `_read_file` calls the parse phases make: one per `.vbp`
(projects), `.frm` (forms), `.bas` (modules), `.cls` (classes) file. -/
def engineReadCount (files : List ScanFile) : Nat :=
  (files.filter (fun f => suffixOf f.name ∈ [".vbp", ".frm", ".bas", ".cls"])).length

structure ScanOutcome (α : Type) where
  analysis : α
  engineReads : Nat
  cache : Option (CacheRec α)
deriving DecidableEq, Repr

/-- `scan` (lines 174-208) around an arbitrary parse pipeline `fullScan`:
on a cache hit return the cached analysis (no engine reads, cache file left
alone); otherwise run the pipeline and save the cache, keeping the old cache
when the write fails (`writeOk = false`, non-fatal, lines 258-259). -/
def scanC {α : Type} [DecidableEq α] (fullScan : List ScanFile → α)
    (files : List ScanFile) (cache : Option (CacheRec α)) (writeOk : Bool) :
    ScanOutcome α :=
  let fp := fingerprint files
  match loadFromCache fp cache with
  | some a => ⟨a, 0, cache⟩
  | none =>
    let a := fullScan files
    ⟨a, engineReadCount files, if writeOk then some ⟨fp, a⟩ else cache⟩

/-- C7: with the metadata fingerprint unchanged, a re-run returns the cached
analysis — the same analysis value as the prior run, hence byte-identical
serialized output for any serializer — with zero pattern-match-engine reads;
an absent/corrupt cache or a fingerprint mismatch triggers the full re-scan;
and a failing cache write never changes the analysis. -/
theorem c7_cache_hit_skips_engine_and_reproduces_output {α : Type} [DecidableEq α]
    (fullScan : List ScanFile → α) (serialize : α → String) (files : List ScanFile) :
    (∀ w, scanC fullScan files none w
        = ⟨fullScan files, engineReadCount files,
           if w then some ⟨fingerprint files, fullScan files⟩ else none⟩)
    ∧ (∀ (c : CacheRec α) w, c.sourceHash ≠ fingerprint files →
        (scanC fullScan files (some c) w).analysis = fullScan files
        ∧ (scanC fullScan files (some c) w).engineReads = engineReadCount files)
    ∧ (∀ w₂,
        (scanC fullScan files ((scanC fullScan files none true).cache) w₂).analysis
          = (scanC fullScan files none true).analysis
        ∧ serialize
            (scanC fullScan files ((scanC fullScan files none true).cache) w₂).analysis
          = serialize (scanC fullScan files none true).analysis
        ∧ (scanC fullScan files ((scanC fullScan files none true).cache) w₂).engineReads
          = 0)
    ∧ (∀ c w, (scanC fullScan files c w).analysis
        = (scanC fullScan files c true).analysis) := by
  refine ⟨?_, ?_, ?_, ?_⟩
  · intro w
    simp [scanC, loadFromCache]
  · intro c w h
    simp [scanC, loadFromCache, h]
  · intro w₂
    simp [scanC, loadFromCache]
  · intro c w
    unfold scanC
    rcases h : loadFromCache (fingerprint files) c with _ | a <;> simp [h]

theorem c7_cache_hit_skips_engine_and_reproduces_output_witness :
    ((scanC (fun fs => fs.length) [⟨"M1.bas", "src/M1.bas", 10, 100⟩]
        (some ⟨["stale"], 7⟩) true).analysis = 1
      ∧ (scanC (fun fs => fs.length) [⟨"M1.bas", "src/M1.bas", 10, 100⟩]
        (some ⟨["stale"], 7⟩) true).engineReads = 1)
    ∧ (scanC (fun fs => fs.length) [⟨"M1.bas", "src/M1.bas", 10, 100⟩]
        ((scanC (fun fs => fs.length) [⟨"M1.bas", "src/M1.bas", 10, 100⟩] none true).cache)
        true).engineReads = 0 := by
  have h := c7_cache_hit_skips_engine_and_reproduces_output
    (fun fs => fs.length) toString [⟨"M1.bas", "src/M1.bas", 10, 100⟩]
  have hm := h.2.1 ⟨["stale"], 7⟩ true (by decide)
  exact ⟨⟨by rw [hm.1]; rfl, by rw [hm.2]; decide⟩, (h.2.2.1 true).2.2⟩

end VB6

/-! ## `scripts/vb6_hardcoded_extractor.py`

Embedding of `_analyze_file` (lines 137-176), `_determine_severity` and
`_get_recommendation`.  The 15 regex categories of `PATTERNS` enter as a
parameter mapping each category to its match list — for each match the
start offset (`match.start()`) and the extracted value (`match.group(1)` if
the pattern has groups, else `match.group(0)`); the comment-line filter
under scrutiny is independent of the battery.  Findings are grouped per
category in a `defaultdict`; the embedding tags each finding with its
category in one flat list, in the same order. -/

namespace VB6

/-- `content[:start].count('\n') + 1` (line 150). -/
def lineNumAt (content : String) (start : Nat) : Nat :=
  ((content.data.take start).filter (fun c => c = '\n')).length + 1

/-- `lines[line_num - 1].strip() if line_num <= len(lines) else ''` (line 151). -/
def lineContentAt (content : String) (lineNum : Nat) : String :=
  let lines := linesOf content
  if lineNum ≤ lines.length then strip (lines.getD (lineNum - 1) "") else ""

/-- `value[:100] + ('...' if len(value) > 100 else '')` (line 169). -/
def pyTrunc (s : String) : String :=
  String.mk (s.data.take 100) ++ (if s.length > 100 then "..." else "")

/-- `_determine_severity` (lines 178-188). -/
def determineSeverity (category : String) : String :=
  if category ∈ ["credential", "connection_string", "ip_address", "server_name"] then "HIGH"
  else if category ∈ ["windows_path", "url", "registry", "port_number"] then "MEDIUM"
  else "LOW"

/-- `_get_recommendation` (lines 190-209). -/
def getRecommendation (category : String) : String :=
  (dget
    [("connection_string", "Move to environment variable or config file"),
     ("windows_path", "Use relative paths or configuration"),
     ("url", "Move to configuration/environment"),
     ("ip_address", "Use DNS names and configuration"),
     ("email", "Move to configuration"),
     ("credential", "⚠️ SECURITY RISK - Move to secure vault"),
     ("magic_number", "Extract to named constant"),
     ("dimension", "Consider responsive design values"),
     ("limit_constant", "Extract to configuration constant"),
     ("sql_table", "Already noted - verify table names"),
     ("registry", "Document registry dependencies"),
     ("server_name", "Move to configuration"),
     ("port_number", "Move to configuration"),
     ("date_format", "Consider locale-aware formatting"),
     ("timeout", "Extract to configurable constant")] category).getD
    "Review and consider extraction"

structure HFinding where
  file : String
  line : Nat
  value : String
  context : String
  severity : String
  recommendation : String
deriving DecidableEq, Repr

/-- `_analyze_file` (lines 137-176) over a matcher battery: per category,
one finding per match whose start line is not a comment line. -/
def hardcodedAnalyzeFile (matchers : List (String × (String → List (Nat × String))))
    (fname content : String) : List (String × HFinding) :=
  matchers.flatMap fun cm =>
    (cm.2 content).filterMap fun m =>
      let lineNum := lineNumAt content m.1
      let lineContent := lineContentAt content lineNum
      if startsWithStr "\x27" (strip lineContent) then none
      else
        some (cm.1,
          { file := fname
            line := lineNum
            value := pyTrunc m.2
            context := String.mk (lineContent.data.take 150)
            severity := determineSeverity cm.1
            recommendation := getRecommendation cm.1 })

/-- C8 (amended): only the hardcoded-value extractor filters comment lines —
every finding it emits starts on a line whose trimmed content does not begin
with the comment marker, for every matcher battery and every input; the
dead-code detector (see the counterexample theorem) and the metrics analyzer
apply their patterns to raw content with no such filter. -/
theorem c8_hardcoded_findings_never_start_on_comment_lines
    (matchers : List (String × (String → List (Nat × String))))
    (fname content : String) :
    ∀ p ∈ hardcodedAnalyzeFile matchers fname content,
      ¬ startsWithStr "\x27" (strip (lineContentAt content p.2.line)) = true := by
  intro p hp
  simp only [hardcodedAnalyzeFile, List.mem_flatMap] at hp
  obtain ⟨cm, _, hp⟩ := hp
  obtain ⟨m, _, hm⟩ := List.mem_filterMap.mp hp
  by_cases hc : startsWithStr "\x27"
      (strip (lineContentAt content (lineNumAt content m.1))) = true
  · rw [if_pos hc] at hm
    exact Option.noConfusion hm
  · rw [if_neg hc] at hm
    injection hm with hm
    subst hm
    exact hc

theorem c8_hardcoded_findings_never_start_on_comment_lines_witness :
    ¬ startsWithStr "\x27" (strip (lineContentAt "x=1\n"
      (("credential",
        ({ file := "a.bas", line := 1, value := "pwd", context := "x=1",
           severity := "HIGH",
           recommendation := "⚠️ SECURITY RISK - Move to secure vault" } : HFinding)) :
          String × HFinding).2.line)) = true :=
  c8_hardcoded_findings_never_start_on_comment_lines
    [("credential", fun _ => [(0, "pwd")])] "a.bas" "x=1\n"
    ("credential",
      { file := "a.bas", line := 1, value := "pwd", context := "x=1",
        severity := "HIGH",
        recommendation := "⚠️ SECURITY RISK - Move to secure vault" })
    (by decide)

end VB6

/-! ## `scripts/vb6_metrics_analyzer.py`

Embedding of the analysis loop of `analyze` (lines 85-96) and the
unreadable-file branch of `_analyze_file` (lines 114-118 and
`_empty_metrics`, lines 308-326).  The per-content metric computation for
readable files (lines 120-183) is a pure function of the file name and
content and enters as the parameter `cm`; the ratio fields are Python
floats, modelled as rationals (`_empty_metrics` only ever puts `0` there).
`pathlib.Path` string forms are modelled by the file's base name. -/

namespace VB6

structure FuncRec where
  name : String
  type : String
  visibility : String
  complexity : Nat
  complexity_level : String
  loc : Nat
deriving DecidableEq, Repr

structure FileMetricsRec where
  name : String
  path : String
  type : String
  loc : Nat
  blank_lines : Nat
  comment_lines : Nat
  comment_ratio : ℚ
  control_count : Nat
  function_count : Nat
  total_complexity : Nat
  average_complexity : ℚ
  max_nesting_depth : Nat
  on_error_resume_next : Nat
  on_error_goto : Nat
  functions : List FuncRec
deriving DecidableEq, Repr

/-- `_empty_metrics` (lines 308-326). -/
def emptyMetrics (fname : String) : FileMetricsRec :=
  { name := fname, path := fname, type := suffixOf fname,
    loc := 0, blank_lines := 0, comment_lines := 0, comment_ratio := 0,
    control_count := 0, function_count := 0, total_complexity := 0,
    average_complexity := 0, max_nesting_depth := 0,
    on_error_resume_next := 0, on_error_goto := 0, functions := [] }

/-- `_analyze_file` (lines 114-118): the unreadable early return, around the
parameterised readable-file computation. -/
def metricsFileRecord (cm : String → String → FileMetricsRec) (f : VFile) :
    FileMetricsRec :=
  match readVFile f with
  | none => emptyMetrics f.name
  | some content => cm f.name content

/-- One file of the loop of `analyze` (lines 85-96): append the record and
accumulate `total_loc`, `total_comments`, `total_functions`,
`total_complexity`. -/
def metricsStep (cm : String → String → FileMetricsRec)
    (acc : List FileMetricsRec × Nat × Nat × Nat × Nat) (f : VFile) :
    List FileMetricsRec × Nat × Nat × Nat × Nat :=
  if suffixOf f.name ∈ vbExts then
    let r := metricsFileRecord cm f
    (acc.1 ++ [r], acc.2.1 + r.loc, acc.2.2.1 + r.comment_lines,
      acc.2.2.2.1 + r.function_count, acc.2.2.2.2 + r.total_complexity)
  else acc

/-- The analysis loop of `analyze`: the per-file records and the four
running totals that feed the summary. -/
def metricsAnalyze (cm : String → String → FileMetricsRec) (files : List VFile) :
    List FileMetricsRec × Nat × Nat × Nat × Nat :=
  files.foldl (metricsStep cm) ([], 0, 0, 0, 0)

end VB6

/-! ### Undecodable files: claim theorem -/

namespace VB6

/-- The per-file record list of the metrics loop, independent of the
accumulator. -/
def metricsRecordsOf (cm : String → String → FileMetricsRec) (files : List VFile) :
    List FileMetricsRec :=
  files.flatMap fun f =>
    if suffixOf f.name ∈ vbExts then [metricsFileRecord cm f] else []

theorem metricsAnalyze_fst (cm : String → String → FileMetricsRec) (l : List VFile) :
    ∀ acc, (l.foldl (metricsStep cm) acc).1 = acc.1 ++ metricsRecordsOf cm l := by
  induction l with
  | nil => intro acc; simp [metricsRecordsOf]
  | cons f l ih =>
    intro acc
    rw [List.foldl_cons, ih]
    unfold metricsStep metricsRecordsOf
    split
    · next h => simp [metricsRecordsOf, h]
    · next h => simp [metricsRecordsOf, h]

/-- The totals component of the metrics loop depends only on the totals
accumulator. -/
def metricsTotStep (cm : String → String → FileMetricsRec)
    (t : Nat × Nat × Nat × Nat) (f : VFile) : Nat × Nat × Nat × Nat :=
  if suffixOf f.name ∈ vbExts then
    let r := metricsFileRecord cm f
    (t.1 + r.loc, t.2.1 + r.comment_lines, t.2.2.1 + r.function_count,
      t.2.2.2 + r.total_complexity)
  else t

theorem metricsAnalyze_snd (cm : String → String → FileMetricsRec) (l : List VFile) :
    ∀ acc, (l.foldl (metricsStep cm) acc).2 = l.foldl (metricsTotStep cm) acc.2 := by
  induction l with
  | nil => intro acc; simp
  | cons f l ih =>
    intro acc
    rw [List.foldl_cons, List.foldl_cons, ih]
    unfold metricsStep metricsTotStep
    split <;> simp

theorem foldl_middle_id {γ δ : Type} (step : δ → γ → δ) (pre post : List γ) (f : γ)
    (init : δ) (h : ∀ d, step d f = d) :
    (pre ++ f :: post).foldl step init = (pre ++ post).foldl step init := by
  rw [List.foldl_append, List.foldl_append, List.foldl_cons, h]

/-- C9: a file none of whose encodings decode is read as no content; the
dead-code detector then contributes no declarations, handlers or references
for it (identical dead-function output with the file removed), the metrics
analyzer emits the all-zero record for it and its four summary totals equal
those of the run without the file, and both analyses stay total. -/
theorem c9_undecodable_file_degrades_gracefully
    (cm : String → String → FileMetricsRec) (pre post : List VFile) (f : VFile)
    (hdec : ∀ enc ∈ ["utf-8", "latin1", "cp1252"], f.decode enc = none) :
    readVFile f = none
    ∧ deadCodeAnalyze (pre ++ f :: post) = deadCodeAnalyze (pre ++ post)
    ∧ (metricsAnalyze cm (pre ++ f :: post)).1
        = (metricsAnalyze cm pre).1
          ++ (if suffixOf f.name ∈ vbExts then [emptyMetrics f.name] else [])
          ++ (metricsAnalyze cm post).1
    ∧ (metricsAnalyze cm (pre ++ f :: post)).2
        = (metricsAnalyze cm (pre ++ post)).2 := by
  have hread : readVFile f = none := by
    unfold readVFile
    rw [hdec "utf-8" (by simp), hdec "latin1" (by simp), hdec "cp1252" (by simp)]
  have hcollect : ∀ st, collectStep st f = st := by
    intro st
    unfold collectStep
    split
    · rw [hread]
    · rfl
  have hrefs : ∀ st, referencesStep st f = st := by
    intro st
    unfold referencesStep
    split
    · rw [hread]
    · rfl
  have hrecord : metricsFileRecord cm f = emptyMetrics f.name := by
    unfold metricsFileRecord
    rw [hread]
  refine ⟨hread, ?_, ?_, ?_⟩
  · unfold deadCodeAnalyze collectDeclarations findReferences
    rw [foldl_middle_id _ _ _ _ _ hcollect, foldl_middle_id _ _ _ _ _ hrefs]
  · unfold metricsAnalyze
    rw [metricsAnalyze_fst, metricsAnalyze_fst, metricsAnalyze_fst]
    unfold metricsRecordsOf
    rw [List.flatMap_append, List.flatMap_cons]
    simp [hrecord]
  · unfold metricsAnalyze
    rw [metricsAnalyze_snd, metricsAnalyze_snd]
    have htot : ∀ t, metricsTotStep cm t f = t := by
      intro t
      unfold metricsTotStep
      split
      · simp [hrecord, emptyMetrics]
      · rfl
    exact foldl_middle_id _ _ _ _ _ htot

theorem c9_undecodable_file_degrades_gracefully_witness :
    readVFile ⟨"b.bas", fun _ => none⟩ = none
    ∧ deadCodeAnalyze [utf8File "a.bas" "Sub A()\nEnd Sub\n", ⟨"b.bas", fun _ => none⟩]
        = deadCodeAnalyze [utf8File "a.bas" "Sub A()\nEnd Sub\n"] := by
  have h := c9_undecodable_file_degrades_gracefully
    (fun n _ => emptyMetrics n) [utf8File "a.bas" "Sub A()\nEnd Sub\n"] []
    ⟨"b.bas", fun _ => none⟩ (by intro enc _; rfl)
  exact ⟨h.1, h.2.1⟩

end VB6
